import Mathlib

/-!
Verification of the primaschema primer-scheme curation tool.

This file gives a shallow embedding of the coordinate-table hashing pipeline
(`lib.py`), the second-generation checksum helpers (`util.py`), the manifest
index (`schema/manifest.py`) and the bundle path validation (`validate.py`),
and proves or refutes the frozen specification claims about them.

External collaborators are modelled faithfully at their interface:
`hashlib.sha256` is implemented bit-for-bit as a pure function (checked below
against the standard FIPS 180-4 test vectors), Biopython's sequence slicing
and reverse complement are reproduced on Lean strings, pandas data frames
become lists of records, and `pandas.sort_values` over a key-column list
becomes a comparison sort over the lexicographic key order (the digest only
depends on the sorted key sequence, so the choice of sorting algorithm is
immaterial).  File parsing and serialisation round-trips (`read_csv`,
`to_dict("records")`) are abstracted away: functions take the parsed record
lists directly.
-/

/-! ## A small verified three-way comparator toolkit

Python sorts rows by comparing tuples of strings and integers; strings are
compared lexicographically by code point.  Lean's built-in `String`
comparison is not kernel-reducible, so we build our own executable
comparators together with the order-theoretic facts the sorting lemmas
need.
-/

def cmpNat (a b : Nat) : Ordering :=
  if a < b then .lt else if b < a then .gt else .eq

def cmpInt (a b : Int) : Ordering :=
  if a < b then .lt else if b < a then .gt else .eq

def cmpChar (a b : Char) : Ordering :=
  cmpNat a.toNat b.toNat

def listCmp (cmp : α → α → Ordering) : List α → List α → Ordering
  | [], [] => .eq
  | [], _ :: _ => .lt
  | _ :: _, [] => .gt
  | a :: as, b :: bs => (cmp a b).then (listCmp cmp as bs)

def cmpStr (a b : String) : Ordering :=
  listCmp cmpChar a.data b.data

def prodCmp (f : α → α → Ordering) (g : β → β → Ordering) :
    α × β → α × β → Ordering
  | (a₁, b₁), (a₂, b₂) => (f a₁ a₂).then (g b₁ b₂)

theorem then_lt_left {x : Ordering} : Ordering.lt.then x = .lt := rfl

theorem then_eq_left {x : Ordering} : Ordering.eq.then x = x := rfl

theorem then_gt_left {x : Ordering} : Ordering.gt.then x = .gt := rfl

theorem ordering_then_eq {a b : Ordering} :
    a.then b = .eq ↔ a = .eq ∧ b = .eq := by
  cases a <;> simp [Ordering.then]

theorem ordering_then_swap {a b : Ordering} :
    (a.then b).swap = a.swap.then b.swap := by
  cases a <;> rfl

/-- The facts we need of a three-way comparator: swap symmetry, reflection of
equality, and transitivity of strict comparison. -/
structure LawCmp (cmp : α → α → Ordering) : Prop where
  swap_eq : ∀ a b, cmp b a = (cmp a b).swap
  eq_iff : ∀ a b, cmp a b = .eq ↔ a = b
  lt_trans : ∀ {a b c}, cmp a b = .lt → cmp b c = .lt → cmp a c = .lt

theorem cmpNat_eq_lt (a b : Nat) : cmpNat a b = .lt ↔ a < b := by
  unfold cmpNat
  by_cases h1 : a < b
  · simp [h1]
  · by_cases h2 : b < a <;> simp [h1, h2]

theorem cmpNat_eq_gt (a b : Nat) : cmpNat a b = .gt ↔ b < a := by
  unfold cmpNat
  by_cases h1 : a < b
  · simp [h1]; omega
  · by_cases h2 : b < a <;> simp [h1, h2]

theorem cmpNat_eq_eq (a b : Nat) : cmpNat a b = .eq ↔ a = b := by
  unfold cmpNat
  by_cases h1 : a < b
  · simp [h1]; omega
  · by_cases h2 : b < a
    · simp [h1, h2]; omega
    · simp [h1, h2]; omega

theorem lawCmpNat : LawCmp cmpNat := by
  refine ⟨fun a b => ?_, cmpNat_eq_eq, fun {a b c} h1 h2 => ?_⟩
  · rcases Nat.lt_trichotomy a b with h | h | h
    · rw [(cmpNat_eq_lt a b).mpr h, (cmpNat_eq_gt b a).mpr h]; rfl
    · rw [(cmpNat_eq_eq a b).mpr h, (cmpNat_eq_eq b a).mpr h.symm]; rfl
    · rw [(cmpNat_eq_gt a b).mpr h, (cmpNat_eq_lt b a).mpr h]; rfl
  · rw [cmpNat_eq_lt] at h1 h2 ⊢; omega

theorem cmpInt_eq_lt (a b : Int) : cmpInt a b = .lt ↔ a < b := by
  unfold cmpInt
  by_cases h1 : a < b
  · simp [h1]
  · by_cases h2 : b < a <;> simp [h1, h2]

theorem cmpInt_eq_gt (a b : Int) : cmpInt a b = .gt ↔ b < a := by
  unfold cmpInt
  by_cases h1 : a < b
  · simp [h1]; omega
  · by_cases h2 : b < a <;> simp [h1, h2]

theorem cmpInt_eq_eq (a b : Int) : cmpInt a b = .eq ↔ a = b := by
  unfold cmpInt
  by_cases h1 : a < b
  · simp [h1]; omega
  · by_cases h2 : b < a
    · simp [h1, h2]; omega
    · simp [h1, h2]; omega

theorem lawCmpInt : LawCmp cmpInt := by
  refine ⟨fun a b => ?_, cmpInt_eq_eq, fun {a b c} h1 h2 => ?_⟩
  · rcases Int.lt_trichotomy a b with h | h | h
    · rw [(cmpInt_eq_lt a b).mpr h, (cmpInt_eq_gt b a).mpr h]; rfl
    · rw [(cmpInt_eq_eq a b).mpr h, (cmpInt_eq_eq b a).mpr h.symm]; rfl
    · rw [(cmpInt_eq_gt a b).mpr h, (cmpInt_eq_lt b a).mpr h]; rfl
  · rw [cmpInt_eq_lt] at h1 h2 ⊢; omega

theorem lawCmpChar : LawCmp cmpChar := by
  refine ⟨fun a b => lawCmpNat.swap_eq _ _, fun a b => ?_,
    fun {a b c} h1 h2 => lawCmpNat.lt_trans h1 h2⟩
  rw [cmpChar, lawCmpNat.eq_iff]
  constructor
  · intro h
    exact Char.eq_of_val_eq (UInt32.eq_of_toBitVec_eq (BitVec.eq_of_toNat_eq h))
  · intro h; rw [h]

theorem lawCmpList {cmp : α → α → Ordering} (hc : LawCmp cmp) :
    LawCmp (listCmp cmp) := by
  refine ⟨fun a b => ?_, fun a b => ?_, fun {a b c} h1 h2 => ?_⟩
  · induction a generalizing b with
    | nil => cases b <;> rfl
    | cons x xs ih =>
      cases b with
      | nil => rfl
      | cons y ys =>
        show (cmp y x).then (listCmp cmp ys xs) =
          ((cmp x y).then (listCmp cmp xs ys)).swap
        rw [hc.swap_eq x y, ih ys]
        exact ordering_then_swap.symm
  · induction a generalizing b with
    | nil => cases b <;> simp [listCmp]
    | cons x xs ih =>
      cases b with
      | nil => simp [listCmp]
      | cons y ys =>
        show (cmp x y).then (listCmp cmp xs ys) = .eq ↔ _
        rw [ordering_then_eq, hc.eq_iff, ih ys]
        simp
  · induction a generalizing b c with
    | nil =>
      cases b with
      | nil => cases c <;> simp_all [listCmp]
      | cons y ys => cases c <;> simp_all [listCmp]
    | cons x xs ih =>
      cases b with
      | nil => simp [listCmp] at h1
      | cons y ys =>
        cases c with
        | nil => simp [listCmp] at h2
        | cons z zs =>
          replace h1 : (cmp x y).then (listCmp cmp xs ys) = .lt := h1
          replace h2 : (cmp y z).then (listCmp cmp ys zs) = .lt := h2
          show (cmp x z).then (listCmp cmp xs zs) = .lt
          rcases hxy : cmp x y with _ | _ | _
          · rcases hyz : cmp y z with _ | _ | _
            · rw [hc.lt_trans hxy hyz]; rfl
            · rw [← (hc.eq_iff y z).mp hyz, hxy]; rfl
            · rw [hyz, then_gt_left] at h2; exact absurd h2 (by simp)
          · rw [hxy, then_eq_left] at h1
            rw [(hc.eq_iff x y).mp hxy]
            rcases hyz : cmp y z with _ | _ | _
            · rfl
            · rw [hyz, then_eq_left] at h2
              rw [then_eq_left]
              exact ih h1 h2
            · rw [hyz, then_gt_left] at h2; exact absurd h2 (by simp)
          · rw [hxy, then_gt_left] at h1; exact absurd h1 (by simp)

theorem lawCmpStr : LawCmp cmpStr := by
  refine ⟨fun a b => (lawCmpList lawCmpChar).swap_eq _ _, fun a b => ?_,
    fun {a b c} h1 h2 => (lawCmpList lawCmpChar).lt_trans h1 h2⟩
  rw [cmpStr, (lawCmpList lawCmpChar).eq_iff]
  constructor
  · intro h; exact String.ext h
  · intro h; rw [h]

theorem lawCmpProd {f : α → α → Ordering} {g : β → β → Ordering}
    (hf : LawCmp f) (hg : LawCmp g) : LawCmp (prodCmp f g) := by
  refine ⟨?_, ?_, ?_⟩
  · rintro ⟨a₁, b₁⟩ ⟨a₂, b₂⟩
    show (f a₂ a₁).then (g b₂ b₁) = ((f a₁ a₂).then (g b₁ b₂)).swap
    rw [hf.swap_eq a₁ a₂, hg.swap_eq b₁ b₂]
    exact ordering_then_swap.symm
  · rintro ⟨a₁, b₁⟩ ⟨a₂, b₂⟩
    show (f a₁ a₂).then (g b₁ b₂) = .eq ↔ (a₁, b₁) = (a₂, b₂)
    rw [ordering_then_eq, hf.eq_iff, hg.eq_iff]
    simp
  · rintro ⟨a₁, b₁⟩ ⟨a₂, b₂⟩ ⟨a₃, b₃⟩ h1 h2
    replace h1 : (f a₁ a₂).then (g b₁ b₂) = .lt := h1
    replace h2 : (f a₂ a₃).then (g b₂ b₃) = .lt := h2
    show (f a₁ a₃).then (g b₁ b₃) = .lt
    rcases hxy : f a₁ a₂ with _ | _ | _
    · rcases hyz : f a₂ a₃ with _ | _ | _
      · rw [hf.lt_trans hxy hyz]; rfl
      · rw [← (hf.eq_iff a₂ a₃).mp hyz, hxy]; rfl
      · rw [hyz, then_gt_left] at h2; exact absurd h2 (by simp)
    · rw [hxy, then_eq_left] at h1
      rw [(hf.eq_iff a₁ a₂).mp hxy]
      rcases hyz : f a₂ a₃ with _ | _ | _
      · rfl
      · rw [hyz, then_eq_left] at h2
        rw [then_eq_left]
        exact hg.lt_trans h1 h2
      · rw [hyz, then_gt_left] at h2; exact absurd h2 (by simp)
    · rw [hxy, then_gt_left] at h1; exact absurd h1 (by simp)

/-- The non-strict order induced by a comparator. -/
def cmpLe (cmp : α → α → Ordering) (a b : α) : Prop :=
  cmp a b ≠ .gt

instance (cmp : α → α → Ordering) : DecidableRel (cmpLe cmp) :=
  fun a b => inferInstanceAs (Decidable (cmp a b ≠ .gt))

theorem LawCmp.le_total {cmp : α → α → Ordering} (h : LawCmp cmp) :
    ∀ a b, cmpLe cmp a b ∨ cmpLe cmp b a := by
  intro a b
  rcases hab : cmp a b with _ | _ | _
  · exact Or.inl (by simp [cmpLe, hab])
  · exact Or.inl (by simp [cmpLe, hab])
  · refine Or.inr ?_
    rw [cmpLe, h.swap_eq a b, hab]
    simp [Ordering.swap]

theorem LawCmp.le_trans {cmp : α → α → Ordering} (h : LawCmp cmp) :
    ∀ {a b c}, cmpLe cmp a b → cmpLe cmp b c → cmpLe cmp a c := by
  intro a b c hab hbc
  rcases h1 : cmp a b with _ | _ | _ <;> rcases h2 : cmp b c with _ | _ | _ <;>
    rw [cmpLe] at *
  · simp [h.lt_trans h1 h2]
  · rw [(h.eq_iff b c).mp h2] at h1; simp [h1]
  · exact absurd h2 hbc
  · rw [(h.eq_iff a b).mp h1]; simp [h2]
  · rw [(h.eq_iff a b).mp h1, h2]; simp
  · exact absurd h2 hbc
  · exact absurd h1 hab
  · exact absurd h1 hab
  · exact absurd h1 hab

theorem LawCmp.le_antisymm {cmp : α → α → Ordering} (h : LawCmp cmp) :
    ∀ {a b}, cmpLe cmp a b → cmpLe cmp b a → a = b := by
  intro a b hab hba
  rw [cmpLe, h.swap_eq a b] at hba
  rcases hab' : cmp a b with _ | _ | _
  · rw [hab'] at hba; simp [Ordering.swap] at hba
  · exact (h.eq_iff a b).mp hab'
  · exact absurd hab' hab

/-! ## SHA-256 (`hashlib.sha256`), implemented as a pure function

The repository delegates all hashing to `hashlib.sha256(...).hexdigest()`.
We implement SHA-256 (FIPS 180-4) over byte lists, with UTF-8 encoding of
strings matching Python's `str.encode`, and validate the implementation
against the standard test vectors for the empty message and `"abc"`.
-/

def w32mod : Nat := 4294967296

def add32 (a b : Nat) : Nat := (a + b) % w32mod

def rotr32 (n x : Nat) : Nat := ((x >>> n) ||| (x <<< (32 - n))) % w32mod

def sha256K : List Nat :=
  [1116352408, 1899447441, 3049323471, 3921009573,
   961987163, 1508970993, 2453635748, 2870763221,
   3624381080, 310598401, 607225278, 1426881987,
   1925078388, 2162078206, 2614888103, 3248222580,
   3835390401, 4022224774, 264347078, 604807628,
   770255983, 1249150122, 1555081692, 1996064986,
   2554220882, 2821834349, 2952996808, 3210313671,
   3336571891, 3584528711, 113926993, 338241895,
   666307205, 773529912, 1294757372, 1396182291,
   1695183700, 1986661051, 2177026350, 2456956037,
   2730485921, 2820302411, 3259730800, 3345764771,
   3516065817, 3600352804, 4094571909, 275423344,
   430227734, 506948616, 659060556, 883997877,
   958139571, 1322822218, 1537002063, 1747873779,
   1955562222, 2024104815, 2227730452, 2361852424,
   2428436474, 2756734187, 3204031479, 3329325298]

structure SHAState where
  a : Nat
  b : Nat
  c : Nat
  d : Nat
  e : Nat
  f : Nat
  g : Nat
  h : Nat

def sha256Init : SHAState :=
  ⟨1779033703, 3144134277, 1013904242, 2773480762,
   1359893119, 2600822924, 528734635, 1541459225⟩

/-- Big-endian byte rendering of `v` in `n` bytes. -/
def beBytes (n v : Nat) : List Nat :=
  (List.range n).map fun i => (v >>> (8 * (n - 1 - i))) % 256

/-- SHA-256 message padding: append `0x80`, zeros, and the 64-bit big-endian
bit length so the total length is a multiple of 64 bytes. -/
def sha256Pad (msg : List Nat) : List Nat :=
  msg ++ [0x80] ++ List.replicate ((64 - ((msg.length + 9) % 64)) % 64) 0 ++
    beBytes 8 (msg.length * 8)

def chunks64Go : Nat → List Nat → List (List Nat)
  | 0, _ => []
  | _ + 1, [] => []
  | n + 1, x :: xs => ((x :: xs).take 64) :: chunks64Go n ((x :: xs).drop 64)

def chunks64 (l : List Nat) : List (List Nat) :=
  chunks64Go l.length l

/-- The 16 initial 32-bit message-schedule words of a 64-byte block
(big-endian). -/
def blockWords (chunk : List Nat) : List Nat :=
  (List.range 16).map fun i =>
    chunk.getD (4 * i) 0 * 16777216 + chunk.getD (4 * i + 1) 0 * 65536 +
      chunk.getD (4 * i + 2) 0 * 256 + chunk.getD (4 * i + 3) 0

def smallSigma0 (x : Nat) : Nat := rotr32 7 x ^^^ rotr32 18 x ^^^ (x >>> 3)

def smallSigma1 (x : Nat) : Nat := rotr32 17 x ^^^ rotr32 19 x ^^^ (x >>> 10)

def scheduleStep (w : List Nat) : List Nat :=
  w ++ [add32 (add32 (w.getD (w.length - 16) 0) (smallSigma0 (w.getD (w.length - 15) 0)))
    (add32 (w.getD (w.length - 7) 0) (smallSigma1 (w.getD (w.length - 2) 0)))]

def sha256Schedule (w16 : List Nat) : List Nat :=
  (List.range 48).foldl (fun w _ => scheduleStep w) w16

def bigSigma0 (x : Nat) : Nat := rotr32 2 x ^^^ rotr32 13 x ^^^ rotr32 22 x

def bigSigma1 (x : Nat) : Nat := rotr32 6 x ^^^ rotr32 11 x ^^^ rotr32 25 x

def sha256Round (s : SHAState) (kw : Nat × Nat) : SHAState :=
  let ch := (s.e &&& s.f) ^^^ ((s.e ^^^ 4294967295) &&& s.g)
  let temp1 := add32 (add32 (add32 s.h (bigSigma1 s.e)) (add32 ch kw.1)) kw.2
  let maj := (s.a &&& s.b) ^^^ (s.a &&& s.c) ^^^ (s.b &&& s.c)
  let temp2 := add32 (bigSigma0 s.a) maj
  ⟨add32 temp1 temp2, s.a, s.b, s.c, add32 s.d temp1, s.e, s.f, s.g⟩

def sha256Block (s : SHAState) (chunk : List Nat) : SHAState :=
  let w := sha256Schedule (blockWords chunk)
  let t := (sha256K.zip w).foldl sha256Round s
  ⟨add32 s.a t.a, add32 s.b t.b, add32 s.c t.c, add32 s.d t.d,
   add32 s.e t.e, add32 s.f t.f, add32 s.g t.g, add32 s.h t.h⟩

def sha256Words (msg : List Nat) : List Nat :=
  let s := (chunks64 (sha256Pad msg)).foldl sha256Block sha256Init
  [s.a, s.b, s.c, s.d, s.e, s.f, s.g, s.h]

def hexNibbleChar (n : Nat) : Char :=
  "0123456789abcdef".data.getD (n % 16) '0'

/-- Lowercase hexadecimal rendering of a 32-bit word, 8 nibbles,
most significant first. -/
def wordHex8 (w : Nat) : List Char :=
  [hexNibbleChar (w >>> 28), hexNibbleChar (w >>> 24), hexNibbleChar (w >>> 20),
   hexNibbleChar (w >>> 16), hexNibbleChar (w >>> 12), hexNibbleChar (w >>> 8),
   hexNibbleChar (w >>> 4), hexNibbleChar w]

/-- `hashlib.sha256(bytes).hexdigest()`. -/
def sha256hex (msg : List Nat) : String :=
  ⟨((sha256Words msg).map wordHex8).flatten⟩

/-- UTF-8 encoding of one scalar value, as in Python's `str.encode()`. -/
def charUtf8 (c : Char) : List Nat :=
  let n := c.toNat
  if n < 128 then [n]
  else if n < 2048 then [192 + n / 64, 128 + n % 64]
  else if n < 65536 then [224 + n / 4096, 128 + n / 64 % 64, 128 + n % 64]
  else [240 + n / 262144, 128 + n / 4096 % 64, 128 + n / 64 % 64, 128 + n % 64]

def strUtf8 (s : String) : List Nat :=
  s.data.flatMap charUtf8

/-- `hashlib.sha256(string.encode()).hexdigest()`. -/
def sha256hexStr (s : String) : String :=
  sha256hex (strUtf8 s)

/-! ## Python string primitives

Helpers mirroring the Python string operations used by the source
(`str.strip`, `str.upper`, slicing, `str.partition`, `str.split`, `int()`).
All operate on the character list underlying a `String` so that they reduce
in the kernel.  `str.upper` is modelled on ASCII letters, which covers every
string the tool manipulates (DNA alphabets, digests, names).
-/

def isPySpace (c : Char) : Bool :=
  c = ' ' || c = '\t' || c = '\n' || c = '\r' || c = '\x0b' || c = '\x0c'

def pyStrip (s : String) : String :=
  ⟨(((s.data.dropWhile isPySpace).reverse.dropWhile isPySpace).reverse)⟩

def pyStripRight (s : String) : String :=
  ⟨(s.data.reverse.dropWhile isPySpace).reverse⟩

def pyCharUpper (c : Char) : Char :=
  if 97 ≤ c.toNat && c.toNat ≤ 122 then Char.ofNat (c.toNat - 32) else c

def pyUpper (s : String) : String :=
  ⟨s.data.map pyCharUpper⟩

/-- Python's `s[:n]` (by code point). -/
def pyTake (s : String) (n : Nat) : String :=
  ⟨s.data.take n⟩

/-- Python's `s[a:b]` slice for non-negative bounds, as used on reference
sequences (out-of-range bounds clamp, empty when `b ≤ a`). -/
def pySlice (s : String) (a b : Nat) : String :=
  ⟨(s.data.drop a).take (b - a)⟩

/-- Python's `s.partition(" ")[0]`: the text before the first space. -/
def firstToken (s : String) : String :=
  ⟨s.data.takeWhile (· ≠ ' ')⟩

def splitOnChar (sep : Char) : List Char → List (List Char)
  | [] => [[]]
  | c :: cs =>
    match splitOnChar sep cs with
    | [] => [[c]]
    | h :: t => if c = sep then [] :: h :: t else (c :: h) :: t

def digitsToNat? (l : List Char) : Option Nat :=
  if l.isEmpty then none
  else l.foldl
    (fun acc c => acc.bind fun n =>
      if 48 ≤ c.toNat && c.toNat ≤ 57 then some (n * 10 + (c.toNat - 48)) else none)
    (some 0)

/-- Python's `int(s)` on a decimal literal (optional sign, surrounding
whitespace), `none` where Python raises `ValueError`. -/
def pyInt? (s : String) : Option Int :=
  match (pyStrip s).data with
  | '+' :: rest => (digitsToNat? rest).map Int.ofNat
  | '-' :: rest => (digitsToNat? rest).map fun n => -(n : Int)
  | l => (digitsToNat? l).map Int.ofNat

/-- `int(name.split("_")[1])` from `sort_primer_df`, `none` where Python
raises. -/
def ampliconNumber? (name : String) : Option Int :=
  match splitOnChar '_' name.data with
  | _ :: seg :: _ => pyInt? ⟨seg⟩
  | _ => none

/-! ## Biopython sequence operations -/

/-- Biopython's DNA complement table (IUPAC letters, case-preserving; other
characters pass through unchanged). -/
def complementChar (c : Char) : Char :=
  match c with
  | 'A' => 'T' | 'T' => 'A' | 'C' => 'G' | 'G' => 'C'
  | 'a' => 't' | 't' => 'a' | 'c' => 'g' | 'g' => 'c'
  | 'M' => 'K' | 'K' => 'M' | 'R' => 'Y' | 'Y' => 'R'
  | 'm' => 'k' | 'k' => 'm' | 'r' => 'y' | 'y' => 'r'
  | 'V' => 'B' | 'B' => 'V' | 'H' => 'D' | 'D' => 'H'
  | 'v' => 'b' | 'b' => 'v' | 'h' => 'd' | 'd' => 'h'
  | other => other

/-- `Seq.reverse_complement()`: complement every letter, then reverse. -/
def reverse_complement (s : String) : String :=
  ⟨(s.data.map complementChar).reverse⟩

/-- One FASTA record as Biopython presents it: `id` is the first
whitespace-delimited token of the header line, `seq` the concatenated
sequence lines. -/
structure FastaRecord where
  id : String
  seq : String
deriving DecidableEq

/-! ## Coordinate table records (`lib.py`)

A parsed row of a 6-column `scheme.bed` (`SCHEME_BED_FIELDS`) or 7-column
`primer.bed` (`PRIMER_BED_FIELDS`) file.  `chromStart`/`chromEnd` are the
BED coordinates (non-negative), `poolName` is parsed with pandas dtype
`int`.
-/

structure SchemeRow where
  chrom : String
  chromStart : Nat
  chromEnd : Nat
  name : String
  poolName : Int
  strand : String
deriving DecidableEq

structure PrimerRow where
  chrom : String
  chromStart : Nat
  chromEnd : Nat
  name : String
  poolName : Int
  strand : String
  sequence : String
deriving DecidableEq

/-- Failure-propagating map (the Python loops raise out of the whole
function on the first bad element). -/
def mapExcept (f : α → Except ε β) : List α → Except ε (List β)
  | [] => .ok []
  | x :: xs =>
    match f x with
    | .error e => .error e
    | .ok y =>
      match mapExcept f xs with
      | .error e => .error e
      | .ok ys => .ok (y :: ys)

/-! ## The canonical sort of `sort_primer_df`

`sort_primer_df` derives `amplicon_number = int(name.split("_")[1])` and
sorts by the column list `[chrom, amplicon_number, chromStart, chromEnd,
poolName, strand, sequence]`.  pandas `sort_values` over those columns is a
comparison sort by the lexicographic order on the key tuples; since every
hashed field is part of the key, the hashed output is independent of which
key-respecting sort is used, and we model it with `List.insertionSort`.
-/

abbrev SortKey := String × Int × Nat × Nat × Int × String × String

def cmpSortKey : SortKey → SortKey → Ordering :=
  prodCmp cmpStr (prodCmp cmpInt (prodCmp cmpNat (prodCmp cmpNat
    (prodCmp cmpInt (prodCmp cmpStr cmpStr)))))

theorem lawCmpSortKey : LawCmp cmpSortKey :=
  lawCmpProd lawCmpStr (lawCmpProd lawCmpInt (lawCmpProd lawCmpNat
    (lawCmpProd lawCmpNat (lawCmpProd lawCmpInt
      (lawCmpProd lawCmpStr lawCmpStr)))))

def rowKey (r : PrimerRow) (n : Int) : SortKey :=
  (r.chrom, n, r.chromStart, r.chromEnd, r.poolName, r.strand, r.sequence)

def pairKey (x : PrimerRow × Int) : SortKey :=
  rowKey x.1 x.2

def pairRowLe (x y : PrimerRow × Int) : Prop :=
  cmpLe cmpSortKey (pairKey x) (pairKey y)

instance : DecidableRel pairRowLe :=
  fun x y => inferInstanceAs (Decidable (cmpSortKey (pairKey x) (pairKey y) ≠ .gt))

/-- The `amplicon_number` column derivation applied to one row: pair the
row with `int(name.split("_")[1])`, raising (on the first bad name) as
`int()` does. -/
def keyRow (r : PrimerRow) : Except String (PrimerRow × Int) :=
  match ampliconNumber? r.name with
  | some n => .ok (r, n)
  | none => .error ("invalid literal for int() in name " ++ r.name)

/-- `sort_primer_df` (on parsed rows): derive each row's amplicon number
and sort by the canonical key; the result keeps the `PRIMER_BED_FIELDS`
columns. -/
def sort_primer_df (rows : List PrimerRow) : Except String (List PrimerRow) :=
  match mapExcept keyRow rows with
  | .error e => .error e
  | .ok keyed => .ok ((List.insertionSort pairRowLe keyed).map Prod.fst)

/-- The sequence normalisation of `normalise_primer_df`:
`df["sequence"].str.strip().str.upper()`. -/
def normaliseRow (r : PrimerRow) : PrimerRow :=
  { r with sequence := pyUpper (pyStrip r.sequence) }

/-- `normalise_primer_df`: strip and uppercase every sequence, then sort
canonically.  (Despite its docstring, the source does not deduplicate.) -/
def normalise_primer_df (rows : List PrimerRow) : Except String (List PrimerRow) :=
  sort_primer_df (rows.map normaliseRow)

/-- `hash_string`: strip and uppercase, SHA-256, keep the first 16 hex
characters, prefix the namespace. -/
def hash_string (s : String) : String :=
  "primaschema:" ++ pyTake (sha256hexStr (pyUpper (pyStrip s))) 16

/-- One row of `normalised_df[[*HASHED_BED_FIELDS]].to_csv(index=False,
header=False)`: comma-joined `chrom,chromStart,chromEnd,poolName,strand,
sequence` with a trailing newline.  (pandas' minimal CSV quoting is not
modelled; none of the fields of a well-formed BED row contain commas,
quotes or newlines.) -/
def rowCsvLine (r : PrimerRow) : String :=
  r.chrom ++ "," ++ Nat.repr r.chromStart ++ "," ++ Nat.repr r.chromEnd ++ "," ++
    Int.repr r.poolName ++ "," ++ r.strand ++ "," ++ r.sequence ++ "\n"

/-- `hash_primer_df`: normalise, serialise the hashed field subset,
`hash_string` it. -/
def hash_primer_df (rows : List PrimerRow) : Except String String :=
  match normalise_primer_df rows with
  | .error e => .error e
  | .ok normalised => .ok (hash_string (String.join (normalised.map rowCsvLine)))

/-- `hash_primer_bed` hashes the parsed rows of a 7-column file. -/
def hash_primer_bed (rows : List PrimerRow) : Except String String :=
  hash_primer_df rows

/-- `SeqIO.read(fasta_path, "fasta")`: requires exactly one record. -/
def seqio_read (records : List FastaRecord) : Except String FastaRecord :=
  match records with
  | [] => .error ("No records found in handle")
  | [r] => .ok r
  | _ :: _ :: _ => .error ("More than one record found in handle")

/-- The backfill loop body of `hash_scheme_bed`: slice `[chromStart,
chromEnd)` of the single reference record (the row's `chrom` is never
consulted), reverse-complementing on the minus strand; any other strand
raises. -/
def backfillRecord (ref : FastaRecord) (r : SchemeRow) : Except String PrimerRow :=
  if r.strand = "+" then
    .ok ⟨r.chrom, r.chromStart, r.chromEnd, r.name, r.poolName, r.strand,
      pySlice ref.seq r.chromStart r.chromEnd⟩
  else if r.strand = "-" then
    .ok ⟨r.chrom, r.chromStart, r.chromEnd, r.name, r.poolName, r.strand,
      reverse_complement (pySlice ref.seq r.chromStart r.chromEnd)⟩
  else .error ("Invalid strand for BED record " ++ r.name)

/-- `hash_scheme_bed`: read the single reference record, backfill each row's
sequence from it, and hash the resulting 7-column table. -/
def hash_scheme_bed (rows : List SchemeRow) (refs : List FastaRecord) :
    Except String String :=
  match seqio_read refs with
  | .error e => .error e
  | .ok ref =>
    match mapExcept (backfillRecord ref) rows with
    | .error e => .error e
    | .ok rows7 => hash_primer_df rows7

def assocGet? : List (String × α) → String → Option α
  | [], _ => none
  | (k, v) :: t, key => if k = key then some v else assocGet? t key

/-- `SeqIO.to_dict`: id-keyed dictionary, raising on duplicate ids. -/
def seqio_to_dict_aux (acc : List (String × FastaRecord)) :
    List FastaRecord → Except String (List (String × FastaRecord))
  | [] => .ok acc
  | r :: rest =>
    if (assocGet? acc r.id).isSome then .error ("Duplicate key " ++ r.id)
    else seqio_to_dict_aux (acc ++ [(r.id, r)]) rest

def seqio_to_dict (records : List FastaRecord) :
    Except String (List (String × FastaRecord)) :=
  seqio_to_dict_aux [] records

/-- The conversion loop body of `convert_scheme_bed_to_primer_bed`: look the
row's chromosome (text before the first space) up in the reference
dictionary and slice; anything other than a `+` strand is
reverse-complemented — there is no strand validation here. -/
def convertRecord (dict : List (String × FastaRecord)) (r : SchemeRow) :
    Except String PrimerRow :=
  match assocGet? dict (firstToken r.chrom) with
  | none => .error ("KeyError: " ++ firstToken r.chrom)
  | some rec =>
    .ok ⟨r.chrom, r.chromStart, r.chromEnd, r.name, r.poolName, r.strand,
      if r.strand = "+" then pySlice rec.seq r.chromStart r.chromEnd
      else reverse_complement (pySlice rec.seq r.chromStart r.chromEnd)⟩

/-- `convert_scheme_bed_to_primer_bed` (returning the parsed rows of the
7-column output it serialises). -/
def convert_scheme_bed_to_primer_bed (rows : List SchemeRow)
    (refs : List FastaRecord) : Except String (List PrimerRow) :=
  match seqio_to_dict refs with
  | .error e => .error e
  | .ok dict => mapExcept (convertRecord dict) rows

/-- A parsed BED file: `infer_bed_type` dispatches on the column count
(7 ⇒ `primer`, 6 ⇒ `scheme`; the parse layer rejects other widths). -/
inductive BedFile where
  | scheme (rows : List SchemeRow)
  | primer (rows : List PrimerRow)

def infer_bed_type : BedFile → String
  | .primer _ => "primer"
  | .scheme _ => "scheme"

/-- `hash_bed`: auto-detect the layout; a 7-column file is hashed directly
(the reference is never opened), a 6-column file is hashed through reference
backfill against the adjacent `reference.fasta` (`refs`). -/
def hash_bed (f : BedFile) (refs : List FastaRecord) : Except String String :=
  match f with
  | .primer rows => hash_primer_bed rows
  | .scheme rows => hash_scheme_bed rows refs

def assocSet : List (String × α) → String → α → List (String × α)
  | [], k, v => [(k, v)]
  | (k', v') :: t, k, v =>
    if k' = k then (k, v) :: t else (k', v') :: assocSet t k v

def refPairLe (p q : String × String) : Prop :=
  cmpLe cmpStr p.1 q.1

instance : DecidableRel refPairLe :=
  fun p q => inferInstanceAs (Decidable (cmpStr p.1 q.1 ≠ .gt))

/-- `hash_ref`: build a dictionary id ↦ uppercased sequence (later records
with the same id overwrite earlier ones), serialise `>id\nSEQ\n` blocks in
sorted-id order, strip, and `hash_string`. -/
def hash_ref (records : List FastaRecord) : String :=
  let dict := records.foldl (fun acc r => assocSet acc r.id (pyUpper r.seq)) []
  let sorted := List.insertionSort refPairLe dict
  let string := String.join (sorted.map fun p => ">" ++ p.1 ++ "\n" ++ p.2 ++ "\n")
  hash_string (pyStrip string)

/-! ## Second-generation checksums (`util.py`) -/

/-- A `primalbedtools.bedfiles.BedLine` as consumed by
`primaschema_bed_hash`: the fields read there are `chrom`, `start`, `end`
(named `stop` here, `end` being reserved), `pool`, `strand` and `sequence`;
`primername` carries the `{scheme}_{amplicon}_{LEFT|RIGHT}` name. -/
structure BedLine where
  chrom : String
  start : Nat
  stop : Nat
  primername : String
  pool : Int
  strand : String
  sequence : String
deriving DecidableEq

def bedLineKey (b : BedLine) : SortKey :=
  (b.chrom, (ampliconNumber? b.primername).getD 0, b.start, b.stop, b.pool,
    b.strand, b.sequence)

def bedLineLe (x y : BedLine) : Prop :=
  cmpLe cmpSortKey (bedLineKey x) (bedLineKey y)

instance : DecidableRel bedLineLe :=
  fun x y => inferInstanceAs (Decidable (cmpSortKey (bedLineKey x) (bedLineKey y) ≠ .gt))

/-- `primalbedtools.bedfiles.sort_bedlines`, an external collaborator:
sorts bed lines by the canonical coordinate key (chromosome, amplicon
number parsed from the primer name, then coordinates).  The properties
proved about `primaschema_bed_hash` below do not depend on this ordering. -/
def sort_bedlines (bedlines : List BedLine) : List BedLine :=
  List.insertionSort bedLineLe bedlines

/-- `primaschema_bed_hash` (on bed lines): hash the concatenation of the
tab-joined `chrom/start/end/pool/strand/sequence` fields of the sorted
lines, truncate to 16 hex characters and prefix `primaschema:bed:`. -/
def primaschema_bed_hash (bedlines : List BedLine) : String :=
  let s_bedlines := sort_bedlines bedlines
  let preimage := String.join (s_bedlines.map fun b =>
    b.chrom ++ "\t" ++ Nat.repr b.start ++ "\t" ++ Nat.repr b.stop ++ "\t" ++
      Int.repr b.pool ++ "\t" ++ b.strand ++ "\t" ++ b.sequence)
  "primaschema:bed:" ++ pyTake (sha256hexStr preimage) 16

def recIdLe (a b : FastaRecord) : Prop :=
  cmpLe cmpStr a.id b.id

instance : DecidableRel recIdLe :=
  fun a b => inferInstanceAs (Decidable (cmpStr a.id b.id ≠ .gt))

/-- `primaschema_ref_hash`: sort the records by id (a stable sort, as
`list.sort`), hash the concatenation of `id.strip().upper()` followed by
`seq.upper()` for each record, truncate to 16 hex characters and prefix
`primaschema:ref:`. -/
def primaschema_ref_hash (seq_records : List FastaRecord) : String :=
  let sorted := List.insertionSort recIdLe seq_records
  let preimage := String.join (sorted.map fun r =>
    pyUpper (pyStrip r.id) ++ pyUpper r.seq)
  "primaschema:ref:" ++ pyTake (sha256hexStr preimage) 16

/-- The reference-digest procedure exactly as the specification words it
(for comparison with the source functions): uppercase each sequence, sort
records by id, serialise as `>id\nSEQUENCE\n` blocks in sorted-id order,
strip trailing whitespace, SHA-256, truncate, prefix with the `ref`
namespace tag. -/
def hash_reference_spec (seq_records : List FastaRecord) : String :=
  let sorted := List.insertionSort recIdLe seq_records
  let blocks := String.join (sorted.map fun r => ">" ++ r.id ++ "\n" ++ pyUpper r.seq ++ "\n")
  "primaschema:ref:" ++ pyTake (sha256hexStr (pyStripRight blocks)) 16

/-! ## The manifest index (`schema/manifest.py`)

`ManifestPrimerScheme` is modelled with the fields the index operations
consult (the three key fields and the two file checksums); its descriptive
payload fields (contributors, organisms, license, status, tags, URLs, …)
are inert for `add`/`remove`/`prune` and are omitted.  Python dictionaries
become insertion-ordered association lists with unique keys:
`setdefault`/assignment replace in place or append, `pop` removes.
-/

structure ManifestPrimerScheme where
  name : String
  amplicon_size : Nat
  version : String
  primer_file_sha256 : Option String
  reference_file_sha256 : Option String
deriving DecidableEq

def lookupA [DecidableEq κ] : List (κ × α) → κ → Option α
  | [], _ => none
  | (k, v) :: t, key => if k = key then some v else lookupA t key

def setA [DecidableEq κ] : List (κ × α) → κ → α → List (κ × α)
  | [], k, v => [(k, v)]
  | (k', v') :: t, k, v =>
    if k' = k then (k, v) :: t else (k', v') :: setA t k v

def eraseA [DecidableEq κ] : List (κ × α) → κ → List (κ × α)
  | [], _ => []
  | (k', v') :: t, k => if k' = k then t else (k', v') :: eraseA t k

abbrev VersionLevel := List (String × ManifestPrimerScheme)

abbrev AmpliconLevel := List (Nat × VersionLevel)

/-- The `primerschemes` mapping of `PrimerSchemeIndex`:
name ↦ amplicon_size ↦ version ↦ manifest entry. -/
abbrev PrimerSchemeIndex := List (String × AmpliconLevel)

def lookupEntry (idx : PrimerSchemeIndex) (name : String) (amplicon_size : Nat)
    (version : String) : Option ManifestPrimerScheme :=
  (lookupA idx name).bind fun nl =>
    (lookupA nl amplicon_size).bind fun al => lookupA al version

/-- The condition under which `add_manifest_primer_scheme` with
`strict=True` *constructs* its `ValueError`s: the key is already present
and a file checksum differs. -/
def manifest_strict_conflict (idx : PrimerSchemeIndex)
    (manifest : ManifestPrimerScheme) : Bool :=
  match lookupEntry idx manifest.name manifest.amplicon_size manifest.version with
  | none => false
  | some original =>
    decide (original.primer_file_sha256 ≠ manifest.primer_file_sha256) ||
      decide (original.reference_file_sha256 ≠ manifest.reference_file_sha256)

/-- `PrimerSchemeIndex.add_manifest_primer_scheme`.  When the version key
already exists under `strict=True` the source compares the two file
checksums and builds `ValueError(...)` objects on mismatch, but never
raises them (no `raise` statement), and then stores the incoming manifest;
every path therefore overwrites/inserts unconditionally, which is what this
embedding computes. -/
def add_manifest_primer_scheme (idx : PrimerSchemeIndex)
    (manifest : ManifestPrimerScheme) (strict : Bool := true) : PrimerSchemeIndex :=
  let name_level := (lookupA idx manifest.name).getD []
  let amplicon_size_level := (lookupA name_level manifest.amplicon_size).getD []
  let amplicon_size_level' :=
    if (lookupA amplicon_size_level manifest.version).isSome && strict then
      -- checksum comparison happens here in the source; its ValueErrors are
      -- discarded and the entry is overwritten just like the else branch
      setA amplicon_size_level manifest.version manifest
    else
      setA amplicon_size_level manifest.version manifest
  let name_level' := setA name_level manifest.amplicon_size amplicon_size_level'
  setA idx manifest.name name_level'

/-- `PrimerSchemeIndex.prune_index`: drop empty version dictionaries, then
drop names whose amplicon dictionary became empty. -/
def prune_index (idx : PrimerSchemeIndex) : PrimerSchemeIndex :=
  (idx.map fun p => (p.1, p.2.filter fun q => !q.2.isEmpty)).filter
    fun p => !p.2.isEmpty

/-- `PrimerSchemeIndex.remove_manifest_primer_scheme`: early-return `false`
when any level is missing; otherwise pop the version, prune, and return
`true`. -/
def remove_manifest_primer_scheme (idx : PrimerSchemeIndex)
    (manifest : ManifestPrimerScheme) : PrimerSchemeIndex × Bool :=
  match lookupA idx manifest.name with
  | none => (idx, false)
  | some name_level =>
    match lookupA name_level manifest.amplicon_size with
    | none => (idx, false)
    | some amplicon_size_level =>
      if (lookupA amplicon_size_level manifest.version).isSome then
        let amplicon_size_level' := eraseA amplicon_size_level manifest.version
        let name_level' := setA name_level manifest.amplicon_size amplicon_size_level'
        let idx' := setA idx manifest.name name_level'
        (prune_index idx', true)
      else (idx, false)

/-! ## Bundle path validation (`validate.py`) -/

/-- The fields of `PrimerScheme` consulted by `validate_name` (the metadata
record's many descriptive fields are irrelevant to path validation). -/
structure PrimerScheme where
  name : String
  amplicon_size : Nat
  version : String
deriving DecidableEq

def scheme_rel_path (ps : PrimerScheme) : String :=
  ps.name ++ "/" ++ Nat.repr ps.amplicon_size ++ "/" ++ ps.version

/-- `validate_name`: `name_seg/size_seg/ver_seg` are the last three
directory segments of the bundle path (`info.json`'s parent is the version
directory, its parent the amplicon size, its grandparent the scheme name).
Checks run version, then amplicon size, then name, each raising a
`ValueError` naming the field, the metadata value and the path value. -/
def validate_name (ps : PrimerScheme) (name_seg size_seg ver_seg : String) :
    Except String Unit :=
  if ps.version ≠ ver_seg then
    .error ("Version mismatch for " ++ scheme_rel_path ps ++ ": info (" ++
      ps.version ++ ") != path (" ++ ver_seg ++ ")")
  else if Nat.repr ps.amplicon_size ≠ size_seg then
    .error ("Amplicon size mismatch for " ++ scheme_rel_path ps ++ ": info (" ++
      Nat.repr ps.amplicon_size ++ ") != path (" ++ size_seg ++ ")")
  else if ps.name ≠ name_seg then
    .error ("Name mismatch for " ++ scheme_rel_path ps ++ ": info (" ++
      ps.name ++ ") != path (" ++ name_seg ++ ")")
  else .ok ()

/-! ## Sorting and traversal lemmas -/

/-- Sorting by an antisymmetric comparator is a function of the multiset:
permuted inputs sort to the same list. -/
theorem insertionSort_eq_of_perm {κ : Type} {cmp : κ → κ → Ordering}
    (hc : LawCmp cmp) (r : κ → κ → Prop) [DecidableRel r]
    (hr : ∀ a b, r a b ↔ cmpLe cmp a b) {l₁ l₂ : List κ} (h : l₁.Perm l₂) :
    List.insertionSort r l₁ = List.insertionSort r l₂ := by
  haveI : IsTotal κ r := ⟨fun a b => by rw [hr, hr]; exact hc.le_total a b⟩
  haveI : IsTrans κ r :=
    ⟨fun a b c hab hbc =>
      (hr a c).mpr (hc.le_trans ((hr a b).mp hab) ((hr b c).mp hbc))⟩
  haveI : IsAntisymm κ r :=
    ⟨fun a b hab hba => hc.le_antisymm ((hr a b).mp hab) ((hr b a).mp hba)⟩
  exact List.eq_of_perm_of_sorted
    (((List.perm_insertionSort r l₁).trans h).trans
      (List.perm_insertionSort r l₂).symm)
    (List.sorted_insertionSort r l₁) (List.sorted_insertionSort r l₂)

/-- Two permuted lists with equal, duplicate-free key images are equal. -/
theorem eq_of_map_eq_perm_nodup {α κ : Type} {f : α → κ} :
    ∀ {l₁ l₂ : List α}, l₁.map f = l₂.map f → l₁.Perm l₂ →
      (l₁.map f).Nodup → l₁ = l₂
  | [], l₂, hm, _, _ => by
    have := congrArg List.length hm
    simp at this
    exact (List.eq_nil_of_length_eq_zero this.symm).symm
  | x :: t₁, [], hm, _, _ => by simp at hm
  | x :: t₁, y :: t₂, hm, hp, hnd => by
    simp only [List.map_cons, List.cons.injEq] at hm
    obtain ⟨hfxy, hmt⟩ := hm
    simp only [List.map_cons, List.nodup_cons] at hnd
    obtain ⟨hnx, hnt⟩ := hnd
    have hxy : x = y := by
      have hx2 : x ∈ y :: t₂ := hp.mem_iff.mp (List.mem_cons_self x t₁)
      rcases List.mem_cons.mp hx2 with h | h
      · exact h
      · exfalso
        apply hnx
        rw [hmt]
        exact List.mem_map_of_mem f h
    subst hxy
    have := eq_of_map_eq_perm_nodup hmt (hp.cons_inv) hnt
    rw [this]

theorem mapExcept_congr {ε α β : Type} {f g : α → Except ε β} :
    ∀ {l : List α}, (∀ x ∈ l, f x = g x) → mapExcept f l = mapExcept g l
  | [], _ => rfl
  | x :: xs, h => by
    have hx := h x (List.mem_cons_self x xs)
    have ht := mapExcept_congr (f := f) (g := g)
      (fun y hy => h y (List.mem_cons_of_mem x hy))
    simp only [mapExcept, hx, ht]

theorem mapExcept_eq_map {ε α β : Type} {f : α → Except ε β} {g : α → β} :
    ∀ {l : List α}, (∀ x ∈ l, f x = .ok (g x)) → mapExcept f l = .ok (l.map g)
  | [], _ => rfl
  | x :: xs, h => by
    have hx := h x (List.mem_cons_self x xs)
    have ht := mapExcept_eq_map (f := f) (g := g)
      (fun y hy => h y (List.mem_cons_of_mem x hy))
    simp only [mapExcept, hx, ht, List.map_cons]

theorem mapExcept_ok_forall {ε α β : Type} {f : α → Except ε β} :
    ∀ {l : List α} {ys : List β}, mapExcept f l = .ok ys →
      ∀ x ∈ l, ∃ y, f x = .ok y := by
  intro l
  induction l with
  | nil => intro ys _ x hx; simp at hx
  | cons a as ih =>
    intro ys h x hx
    rcases hfa : f a with e | y
    · rw [mapExcept, hfa] at h
      simp at h
    · rcases hrest : mapExcept f as with e | ys'
      · rw [mapExcept, hfa, hrest] at h
        simp at h
      · rcases List.mem_cons.mp hx with rfl | hx'
        · exact ⟨y, hfa⟩
        · exact ih hrest x hx'

/-! ## The hashing pipeline, under successful amplicon-number parsing -/

/-- The amplicon pairing actually produced when every name parses. -/
def keyedRow (r : PrimerRow) : PrimerRow × Int :=
  (r, (ampliconNumber? r.name).getD 0)

theorem keyRow_eq_keyedRow {r : PrimerRow}
    (h : (ampliconNumber? r.name).isSome) : keyRow r = .ok (keyedRow r) := by
  rcases h' : ampliconNumber? r.name with _ | n
  · rw [h'] at h; simp at h
  · simp [keyRow, keyedRow, h']

theorem sort_primer_df_eq (rows : List PrimerRow)
    (h : ∀ r ∈ rows, (ampliconNumber? r.name).isSome) :
    sort_primer_df rows =
      .ok ((List.insertionSort pairRowLe (rows.map keyedRow)).map Prod.fst) := by
  rw [sort_primer_df,
    mapExcept_eq_map (g := keyedRow) fun x hx => keyRow_eq_keyedRow (h x hx)]

theorem sort_primer_df_ok_names {rows ys} (h : sort_primer_df rows = .ok ys) :
    ∀ r ∈ rows, (ampliconNumber? r.name).isSome := by
  intro r hr
  rw [sort_primer_df] at h
  rcases hm : mapExcept keyRow rows with e | keyed
  · rw [hm] at h; simp at h
  · obtain ⟨y, hy⟩ := mapExcept_ok_forall hm r hr
    rw [keyRow] at hy
    rcases h' : ampliconNumber? r.name with _ | n
    · rw [h'] at hy; simp at hy
    · simp [h']

theorem hash_primer_df_names {rows : List PrimerRow}
    (h : (hash_primer_df rows).isOk = true) :
    ∀ r ∈ rows, (ampliconNumber? r.name).isSome := by
  intro r hr
  rw [hash_primer_df] at h
  rcases hm : normalise_primer_df rows with e | ns
  · rw [hm] at h; simp [Except.isOk, Except.toBool] at h
  · rw [normalise_primer_df] at hm
    have := sort_primer_df_ok_names hm (normaliseRow r)
      (List.mem_map_of_mem normaliseRow hr)
    exact this

theorem hash_primer_df_eq (rows : List PrimerRow)
    (h : ∀ r ∈ rows, (ampliconNumber? r.name).isSome) :
    hash_primer_df rows = .ok (hash_string (String.join
      ((List.insertionSort pairRowLe ((rows.map normaliseRow).map keyedRow)).map
        fun x => rowCsvLine x.1))) := by
  have h' : ∀ r ∈ rows.map normaliseRow, (ampliconNumber? r.name).isSome := by
    intro r hr
    obtain ⟨r₀, hr₀, rfl⟩ := List.mem_map.mp hr
    exact h r₀ hr₀
  have hn : normalise_primer_df rows =
      .ok ((List.insertionSort pairRowLe
        ((rows.map normaliseRow).map keyedRow)).map Prod.fst) := by
    rw [normalise_primer_df]; exact sort_primer_df_eq _ h'
  rw [hash_primer_df, hn]
  simp only [List.map_map]
  rfl

/-- The CSV rendering of a canonical sort key (the amplicon number is a sort
key but not a hashed column). -/
def keyCsv (k : SortKey) : String :=
  k.1 ++ "," ++ Nat.repr k.2.2.1 ++ "," ++ Nat.repr k.2.2.2.1 ++ "," ++
    Int.repr k.2.2.2.2.1 ++ "," ++ k.2.2.2.2.2.1 ++ "," ++ k.2.2.2.2.2.2 ++ "\n"

theorem rowCsvLine_eq_keyCsv (x : PrimerRow × Int) :
    rowCsvLine x.1 = keyCsv (pairKey x) := rfl

/-- The serialised hashed-field rows of a canonically sorted keyed table are
a function of the keyed table's multiset. -/
theorem sorted_rows_csv_perm {keyed₁ keyed₂ : List (PrimerRow × Int)}
    (h : keyed₁.Perm keyed₂) :
    (List.insertionSort pairRowLe keyed₁).map (fun x => rowCsvLine x.1) =
    (List.insertionSort pairRowLe keyed₂).map (fun x => rowCsvLine x.1) := by
  have hmap : ∀ keyed : List (PrimerRow × Int),
      (List.insertionSort pairRowLe keyed).map (fun x => rowCsvLine x.1) =
        (List.insertionSort (cmpLe cmpSortKey) (keyed.map pairKey)).map keyCsv := by
    intro keyed
    have hcomm := List.map_insertionSort pairRowLe (cmpLe cmpSortKey) pairKey keyed
      (fun a _ b _ => Iff.rfl)
    calc (List.insertionSort pairRowLe keyed).map (fun x => rowCsvLine x.1)
        = ((List.insertionSort pairRowLe keyed).map pairKey).map keyCsv := by
          rw [List.map_map]; rfl
      _ = (List.insertionSort (cmpLe cmpSortKey) (keyed.map pairKey)).map keyCsv := by
          rw [hcomm]
  rw [hmap, hmap,
    insertionSort_eq_of_perm lawCmpSortKey (cmpLe cmpSortKey) (fun _ _ => Iff.rfl)
      (h.map pairKey)]

/-! ## Claim theorems: the hashing pipeline -/

/-- Claim C4: hashing a 7-column coordinate table is row-order independent —
for any permutation of a table whose digest is defined, the permuted table
hashes to the identical result (the canonical sort by chromosome, amplicon
number, start, end, pool, strand and sequence erases the input order). -/
theorem hash_primer_df_perm_invariant (l₁ l₂ : List PrimerRow)
    (hperm : l₂.Perm l₁) (hok : (hash_primer_df l₁).isOk = true) :
    hash_primer_df l₂ = hash_primer_df l₁ := by
  have h₁ := hash_primer_df_names hok
  have h₂ : ∀ r ∈ l₂, (ampliconNumber? r.name).isSome :=
    fun r hr => h₁ r (hperm.mem_iff.mp hr)
  rw [hash_primer_df_eq l₁ h₁, hash_primer_df_eq l₂ h₂,
    sorted_rows_csv_perm ((hperm.map normaliseRow).map keyedRow)]

def wRowA : PrimerRow :=
  ⟨"MN908947.3", 30, 54, "SARS-CoV-2_2_LEFT", 2, "+", "CATGTTATGGTTTCCAGAACCTG"⟩

def wRowB : PrimerRow :=
  ⟨"MN908947.3", 10, 35, "SARS-CoV-2_1_LEFT", 1, "+", "ACCAACCAACTTTCGATCTCTTGT"⟩

def wRowC : PrimerRow :=
  ⟨"MN908947.3", 90, 112, "SARS-CoV-2_1_RIGHT", 1, "-", "CAGATGAAATCTCTGTTGTAAG"⟩

/-- Witness for C4 at a concrete three-row table and permutation. -/
theorem hash_primer_df_perm_invariant_witness :
    [wRowC, wRowA, wRowB].Perm [wRowA, wRowB, wRowC] ∧
      (hash_primer_df [wRowA, wRowB, wRowC]).isOk = true ∧
      hash_primer_df [wRowC, wRowA, wRowB] = hash_primer_df [wRowA, wRowB, wRowC] :=
  ⟨by decide, by decide,
    hash_primer_df_perm_invariant [wRowA, wRowB, wRowC] [wRowC, wRowA, wRowB]
      (by decide) (by decide)⟩

def nRow : PrimerRow :=
  ⟨"MN908947.3", 10, 35, "SARS-CoV-2_1_LEFT", 1, "+", "NNNNACGTNN"⟩

/-- Counterexample to claim C3 as stated: a table whose sequence contains
`N` (a character outside {A,C,G,T}) is hashed successfully by the
coordinate-table hashing pipeline — a digest is produced, no
invalid-sequence error is raised (`lib.py` never validates the alphabet on
the hashing path). -/
theorem hash_primer_df_accepts_N :
    'N' ∈ nRow.sequence.data ∧ (hash_primer_df [nRow]).isOk = true := by
  constructor
  · decide
  · decide

/-- Claim C3 as amended: the coordinate-table hashing operation performs no
sequence-alphabet validation at all — for every table whose names carry an
amplicon number, hashing succeeds and produces a digest whatever characters
the sequences contain. -/
theorem hash_primer_df_no_alphabet_check (rows : List PrimerRow)
    (h : ∀ r ∈ rows, (ampliconNumber? r.name).isSome) :
    (hash_primer_df rows).isOk = true := by
  rw [hash_primer_df_eq rows h]
  rfl

/-- Witness for the amended C3 at the concrete `N`-containing table. -/
theorem hash_primer_df_no_alphabet_check_witness :
    (∀ r ∈ [nRow], (ampliconNumber? r.name).isSome) ∧
      (hash_primer_df [nRow]).isOk = true :=
  ⟨by decide, hash_primer_df_no_alphabet_check [nRow] (by decide)⟩

def starRow : SchemeRow := ⟨"chr1", 0, 3, "x_1_LEFT", 1, "*"⟩

def wRef : FastaRecord := ⟨"chr1", "ACGTACGT"⟩

/-- Counterexample to claim C7 as stated: the sequence resolution in
`convert_scheme_bed_to_primer_bed` does not fail on a strand value other
than `+`/`-`; for strand `*` it silently produces the reverse complement of
the slice (here `[0,3)` of `ACGTACGT` is `ACG`, whose reverse complement is
`CGT`). -/
theorem convert_resolves_invalid_strand :
    convert_scheme_bed_to_primer_bed [starRow] [wRef] =
      .ok [⟨"chr1", 0, 3, "x_1_LEFT", 1, "*", "CGT"⟩] ∧
    "CGT" = reverse_complement (pySlice wRef.seq 0 3) := by
  constructor
  · rfl
  · rfl

/-- Claim C7 as amended: resolution slices the zero-based half-open interval
`[chromStart, chromEnd)` from the reference; strand `+` yields the literal
slice and strand `-` its reverse complement (complement A↔T, C↔G) in both
resolvers, but only `hash_scheme_bed`'s backfill rejects other strand
values — `convert_scheme_bed_to_primer_bed` reverse-complements for any
strand other than `+`. -/
theorem strand_resolution_spec (rec : FastaRecord) (r : SchemeRow)
    (dict : List (String × FastaRecord)) :
    (r.strand = "+" → backfillRecord rec r =
      .ok ⟨r.chrom, r.chromStart, r.chromEnd, r.name, r.poolName, r.strand,
        pySlice rec.seq r.chromStart r.chromEnd⟩) ∧
    (r.strand = "-" → backfillRecord rec r =
      .ok ⟨r.chrom, r.chromStart, r.chromEnd, r.name, r.poolName, r.strand,
        reverse_complement (pySlice rec.seq r.chromStart r.chromEnd)⟩) ∧
    (r.strand ≠ "+" → r.strand ≠ "-" → backfillRecord rec r =
      .error ("Invalid strand for BED record " ++ r.name)) ∧
    (assocGet? dict (firstToken r.chrom) = some rec → r.strand ≠ "+" →
      convertRecord dict r =
        .ok ⟨r.chrom, r.chromStart, r.chromEnd, r.name, r.poolName, r.strand,
          reverse_complement (pySlice rec.seq r.chromStart r.chromEnd)⟩) ∧
    (complementChar 'A' = 'T' ∧ complementChar 'T' = 'A' ∧
      complementChar 'C' = 'G' ∧ complementChar 'G' = 'C') := by
  refine ⟨?_, ?_, ?_, ?_, by decide⟩
  · intro h; simp [backfillRecord, h]
  · intro h
    have h' : r.strand ≠ "+" := by rw [h]; decide
    simp [backfillRecord, h, h']
  · intro h1 h2; simp [backfillRecord, h1, h2]
  · intro hlook h1; simp [convertRecord, hlook, h1]

/-- Witness for the amended C7 at concrete records on both strands and on a
bad strand. -/
theorem strand_resolution_spec_witness :
    backfillRecord wRef ⟨"chr1", 0, 3, "x_1_LEFT", 1, "+"⟩ =
      .ok ⟨"chr1", 0, 3, "x_1_LEFT", 1, "+", pySlice wRef.seq 0 3⟩ ∧
    backfillRecord wRef ⟨"chr1", 0, 3, "x_1_LEFT", 1, "-"⟩ =
      .ok ⟨"chr1", 0, 3, "x_1_LEFT", 1, "-",
        reverse_complement (pySlice wRef.seq 0 3)⟩ ∧
    backfillRecord wRef starRow =
      .error ("Invalid strand for BED record " ++ starRow.name) ∧
    convertRecord [(wRef.id, wRef)] starRow =
      .ok ⟨"chr1", 0, 3, "x_1_LEFT", 1, "*",
        reverse_complement (pySlice wRef.seq 0 3)⟩ :=
  ⟨(strand_resolution_spec wRef ⟨"chr1", 0, 3, "x_1_LEFT", 1, "+"⟩ []).1 (by decide),
   (strand_resolution_spec wRef ⟨"chr1", 0, 3, "x_1_LEFT", 1, "-"⟩ []).2.1 (by decide),
   (strand_resolution_spec wRef starRow []).2.2.1 (by decide) (by decide),
   (strand_resolution_spec wRef starRow [(wRef.id, wRef)]).2.2.2.1 (by decide) (by decide)⟩

/-- Claim C1: hashing a 6-column table against a consistent reference (a
single record that every row's chromosome designates) returns exactly the
digest of the backfilled 7-column table produced by
`convert_scheme_bed_to_primer_bed`. -/
theorem hash_scheme_bed_eq_hash_primer_bed (rows : List SchemeRow)
    (rec : FastaRecord) (rows7 : List PrimerRow)
    (hstrand : ∀ r ∈ rows, r.strand = "+" ∨ r.strand = "-")
    (hchrom : ∀ r ∈ rows, firstToken r.chrom = rec.id)
    (hconv : convert_scheme_bed_to_primer_bed rows [rec] = .ok rows7) :
    hash_scheme_bed rows [rec] = hash_primer_bed rows7 := by
  have hdict : seqio_to_dict [rec] = .ok [(rec.id, rec)] := rfl
  have hconv' : mapExcept (convertRecord [(rec.id, rec)]) rows = .ok rows7 := by
    rw [convert_scheme_bed_to_primer_bed, hdict] at hconv
    exact hconv
  have hpt : ∀ r ∈ rows, backfillRecord rec r = convertRecord [(rec.id, rec)] r := by
    intro r hr
    have hc := hchrom r hr
    have hlook : assocGet? [(rec.id, rec)] (firstToken r.chrom) = some rec := by
      simp [assocGet?, hc]
    rcases hstrand r hr with h | h
    · simp [backfillRecord, convertRecord, hlook, h]
    · have h' : r.strand ≠ "+" := by rw [h]; decide
      simp [backfillRecord, convertRecord, hlook, h, h']
  have hbf : mapExcept (backfillRecord rec) rows = .ok rows7 := by
    rw [mapExcept_congr hpt]
    exact hconv'
  calc hash_scheme_bed rows [rec]
      = (match mapExcept (backfillRecord rec) rows with
          | .error e => .error e
          | .ok rows7' => hash_primer_df rows7') := rfl
    _ = hash_primer_df rows7 := by rw [hbf]
    _ = hash_primer_bed rows7 := rfl

def wScheme : List SchemeRow :=
  [⟨"chr1", 0, 3, "x_1_LEFT", 1, "+"⟩, ⟨"chr1", 5, 8, "x_1_RIGHT", 1, "-"⟩]

/-- Witness for C1 at a concrete two-row scheme table and single-record
reference. -/
theorem hash_scheme_bed_eq_hash_primer_bed_witness :
    (∀ r ∈ wScheme, r.strand = "+" ∨ r.strand = "-") ∧
    (∀ r ∈ wScheme, firstToken r.chrom = wRef.id) ∧
    convert_scheme_bed_to_primer_bed wScheme [wRef] =
      .ok [⟨"chr1", 0, 3, "x_1_LEFT", 1, "+", "ACG"⟩,
           ⟨"chr1", 5, 8, "x_1_RIGHT", 1, "-", "ACG"⟩] ∧
    hash_scheme_bed wScheme [wRef] =
      hash_primer_bed [⟨"chr1", 0, 3, "x_1_LEFT", 1, "+", "ACG"⟩,
        ⟨"chr1", 5, 8, "x_1_RIGHT", 1, "-", "ACG"⟩] :=
  ⟨by decide, by decide, by rfl,
    hash_scheme_bed_eq_hash_primer_bed wScheme wRef _ (by decide) (by decide) (by rfl)⟩

/-- Claim C10: the auto-detecting `hash_bed` hashes a 7-column file without
consulting any reference; a 6-column file is hashed only against a
single-record adjacent reference (zero or several records fail), and the
backfill slices that sole record while ignoring each row's declared
chromosome entirely (changing a row's `chrom` changes nothing but the
`chrom` field carried into the hashed table). -/
theorem hash_bed_spec (prows : List PrimerRow) (rows : List SchemeRow)
    (refs : List FastaRecord) (rec : FastaRecord) (r : SchemeRow) (c' : String) :
    hash_bed (.primer prows) refs = hash_primer_df prows ∧
    (refs.length ≠ 1 → ∃ e, hash_bed (.scheme rows) refs = .error e) ∧
    (refs = [] → hash_bed (.scheme rows) refs = .error ("No records found in handle")) ∧
    hash_bed (.scheme rows) [rec] =
      (match mapExcept (backfillRecord rec) rows with
        | .error e => .error e
        | .ok rows7 => hash_primer_df rows7) ∧
    backfillRecord rec { r with chrom := c' } =
      (backfillRecord rec r).map (fun p => { p with chrom := c' }) := by
  refine ⟨rfl, ?_, ?_, rfl, ?_⟩
  · intro hlen
    match refs with
    | [] => exact ⟨"No records found in handle", rfl⟩
    | [x] => simp at hlen
    | x :: y :: rest => exact ⟨"More than one record found in handle", rfl⟩
  · intro h
    subst h
    rfl
  · by_cases h1 : r.strand = "+"
    · simp [backfillRecord, h1, Except.map]
    · by_cases h2 : r.strand = "-"
      · simp [backfillRecord, h1, h2, Except.map]
      · simp [backfillRecord, h1, h2, Except.map]

/-- Witness for C10 at concrete tables, an empty and a two-record
reference, and a row whose chromosome is rewritten. -/
theorem hash_bed_spec_witness :
    hash_bed (.primer [wRowA]) [] = hash_primer_df [wRowA] ∧
    (∃ e, hash_bed (.scheme wScheme) [wRef, wRef] = .error e) ∧
    hash_bed (.scheme wScheme) [] = .error ("No records found in handle") ∧
    backfillRecord wRef { starRow with chrom := "chrOther" } =
      (backfillRecord wRef starRow).map (fun p => { p with chrom := "chrOther" }) := by
  obtain ⟨h1, h2, h3, _, h5⟩ :=
    hash_bed_spec [wRowA] wScheme [wRef, wRef] wRef starRow ("chrOther")
  obtain ⟨h1', _, h3', _, _⟩ :=
    hash_bed_spec [wRowA] wScheme [] wRef starRow ("chrOther")
  exact ⟨h1', h2 (by decide), h3' rfl, h5⟩

/-! ## Digest format lemmas -/

/-- Lowercase hexadecimal digit test (the alphabet of `hexdigest()`). -/
def isHexDigitChar (c : Char) : Bool :=
  (48 ≤ c.toNat && c.toNat ≤ 57) || (97 ≤ c.toNat && c.toNat ≤ 102)

theorem hexNibbleChar_isHex (n : Nat) : isHexDigitChar (hexNibbleChar n) = true := by
  have h : n % 16 < 16 := Nat.mod_lt _ (by decide)
  rw [hexNibbleChar]
  set m := n % 16 with hm
  interval_cases m <;> decide

theorem flatten_map_wordHex8_length (ws : List Nat) :
    ((ws.map wordHex8).flatten).length = 8 * ws.length := by
  induction ws with
  | nil => rfl
  | cons w t ih =>
    simp only [List.map_cons, List.flatten_cons, List.length_append, ih,
      List.length_cons]
    have : (wordHex8 w).length = 8 := rfl
    omega

theorem sha256Words_length (msg : List Nat) : (sha256Words msg).length = 8 := rfl

theorem sha256hex_length (msg : List Nat) : (sha256hex msg).data.length = 64 := by
  show (((sha256Words msg).map wordHex8).flatten).length = 64
  rw [flatten_map_wordHex8_length, sha256Words_length]

theorem sha256hex_hex (msg : List Nat) :
    ∀ c ∈ (sha256hex msg).data, isHexDigitChar c = true := by
  intro c hc
  have hc' : c ∈ ((sha256Words msg).map wordHex8).flatten := hc
  obtain ⟨l, hl, hcl⟩ := List.mem_flatten.mp hc'
  obtain ⟨w, _, rfl⟩ := List.mem_map.mp hl
  rw [wordHex8] at hcl
  simp only [List.mem_cons, List.not_mem_nil, or_false] at hcl
  rcases hcl with rfl | rfl | rfl | rfl | rfl | rfl | rfl | rfl <;>
    exact hexNibbleChar_isHex _

/-- The first sixteen characters of a SHA-256 hexdigest: sixteen lowercase
hexadecimal characters. -/
theorem take16_sha256_spec (s : String) :
    (pyTake (sha256hexStr s) 16).length = 16 ∧
      ∀ c ∈ (pyTake (sha256hexStr s) 16).data, isHexDigitChar c = true := by
  constructor
  · show (List.take 16 (sha256hexStr s).data).length = 16
    rw [List.length_take, sha256hexStr, sha256hex_length]
    rfl
  · intro c hc
    exact sha256hex_hex _ c (List.take_subset 16 _ hc)

/-- Claim C6: for every coordinate table, `primaschema_bed_hash` returns
`primaschema:bed:` followed by exactly the first sixteen characters of a
SHA-256 hexdigest — sixteen lowercase hexadecimal characters (namespace,
type tag, 16-hex-char digest). -/
theorem primaschema_bed_hash_format (bedlines : List BedLine) :
    ∃ s : String,
      primaschema_bed_hash bedlines = "primaschema:bed:" ++ pyTake (sha256hexStr s) 16 ∧
      (pyTake (sha256hexStr s) 16).length = 16 ∧
      ∀ c ∈ (pyTake (sha256hexStr s) 16).data, isHexDigitChar c = true :=
  ⟨_, rfl, (take16_sha256_spec _).1, (take16_sha256_spec _).2⟩

/-! ## Claim theorems: the reference digest -/

/-- The id/uppercased-sequence projection of a FASTA record: both reference
digests are functions of it alone. -/
def refDictPair (r : FastaRecord) : String × String :=
  (r.id, pyUpper r.seq)

theorem assocSet_append {l : List (String × String)} {k : String} {v : String}
    (h : ¬ k ∈ l.map Prod.fst) : assocSet l k v = l ++ [(k, v)] := by
  induction l with
  | nil => rfl
  | cons p t ih =>
    simp only [List.map_cons, List.mem_cons] at h
    push_neg at h
    rw [assocSet, if_neg (fun hh => h.1 hh.symm), ih h.2]
    rfl

theorem foldl_assocSet_eq :
    ∀ {l : List FastaRecord} {acc : List (String × String)},
      (acc.map Prod.fst ++ l.map FastaRecord.id).Nodup →
      l.foldl (fun acc r => assocSet acc r.id (pyUpper r.seq)) acc =
        acc ++ l.map refDictPair
  | [], acc, _ => by simp
  | r :: t, acc, h => by
    have hmem : ¬ r.id ∈ acc.map Prod.fst := by
      intro hin
      obtain ⟨-, -, hdisj⟩ := List.nodup_append.mp h
      exact hdisj hin (by simp)
    have hstep : assocSet acc r.id (pyUpper r.seq) = acc ++ [refDictPair r] :=
      assocSet_append hmem
    have h' : ((acc ++ [refDictPair r]).map Prod.fst ++
        t.map FastaRecord.id).Nodup := by
      simp only [List.map_append, refDictPair, List.map_cons, List.map_nil]
      rw [List.append_assoc]
      simpa using h
    calc (r :: t).foldl (fun acc r => assocSet acc r.id (pyUpper r.seq)) acc
        = t.foldl (fun acc r => assocSet acc r.id (pyUpper r.seq))
            (acc ++ [refDictPair r]) := by rw [List.foldl_cons, hstep]
      _ = (acc ++ [refDictPair r]) ++ t.map refDictPair := foldl_assocSet_eq h'
      _ = acc ++ (r :: t).map refDictPair := by simp

theorem foldl_assocSet_congr :
    ∀ {l₁ l₂ : List FastaRecord} {acc : List (String × String)},
      l₁.map refDictPair = l₂.map refDictPair →
      l₁.foldl (fun acc r => assocSet acc r.id (pyUpper r.seq)) acc =
        l₂.foldl (fun acc r => assocSet acc r.id (pyUpper r.seq)) acc
  | [], [], _, _ => rfl
  | [], _ :: _, _, hm => by simp [refDictPair] at hm
  | _ :: _, [], _, hm => by simp [refDictPair] at hm
  | x :: t₁, y :: t₂, acc, hm => by
    simp only [List.map_cons, List.cons.injEq, refDictPair, Prod.mk.injEq] at hm
    obtain ⟨⟨hid, hseq⟩, hmt⟩ := hm
    rw [List.foldl_cons, List.foldl_cons, hid, hseq]
    exact foldl_assocSet_congr (by simpa [refDictPair] using hmt)

/-- `hash_ref` in closed form over the id-keyed dictionary, available once
the record ids are distinct. -/
theorem hash_ref_eq (l : List FastaRecord) (hnd : (l.map FastaRecord.id).Nodup) :
    hash_ref l = hash_string (pyStrip (String.join
      ((List.insertionSort refPairLe (l.map refDictPair)).map
        fun p => ">" ++ p.1 ++ "\n" ++ p.2 ++ "\n"))) := by
  show hash_string (pyStrip (String.join
      ((List.insertionSort refPairLe
        (l.foldl (fun acc r => assocSet acc r.id (pyUpper r.seq)) [])).map
          fun p => ">" ++ p.1 ++ "\n" ++ p.2 ++ "\n"))) = _
  rw [foldl_assocSet_eq (by simpa using hnd)]
  rfl

theorem hash_ref_perm {l₁ l₂ : List FastaRecord}
    (hnd : (l₁.map FastaRecord.id).Nodup) (hperm : l₁.Perm l₂) :
    hash_ref l₁ = hash_ref l₂ := by
  have hnd₂ : (l₂.map FastaRecord.id).Nodup := (hperm.map FastaRecord.id).nodup_iff.mp hnd
  rw [hash_ref_eq l₁ hnd, hash_ref_eq l₂ hnd₂]
  have hsorteq : List.insertionSort refPairLe (l₁.map refDictPair) =
      List.insertionSort refPairLe (l₂.map refDictPair) := by
    have hp : (l₁.map refDictPair).Perm (l₂.map refDictPair) := hperm.map _
    have hfst : ∀ l : List FastaRecord,
        (List.insertionSort refPairLe (l.map refDictPair)).map Prod.fst =
          List.insertionSort (cmpLe cmpStr) (l.map FastaRecord.id) := by
      intro l
      rw [List.map_insertionSort refPairLe (cmpLe cmpStr) Prod.fst _
        (fun a _ b _ => Iff.rfl), List.map_map]
      rfl
    apply eq_of_map_eq_perm_nodup (f := Prod.fst)
    · rw [hfst, hfst,
        insertionSort_eq_of_perm lawCmpStr (cmpLe cmpStr) (fun _ _ => Iff.rfl)
          (hperm.map FastaRecord.id)]
    · exact ((List.perm_insertionSort _ _).trans hp).trans
        (List.perm_insertionSort _ _).symm
    · rw [hfst]
      exact ((List.perm_insertionSort (cmpLe cmpStr)
        (l₁.map FastaRecord.id)).nodup_iff).mpr hnd
  rw [hsorteq]

theorem hash_ref_case {l₁ l₂ : List FastaRecord}
    (hmap : l₁.map refDictPair = l₂.map refDictPair) :
    hash_ref l₁ = hash_ref l₂ := by
  show hash_string (pyStrip (String.join
      ((List.insertionSort refPairLe
        (l₁.foldl (fun acc r => assocSet acc r.id (pyUpper r.seq)) [])).map
          fun p => ">" ++ p.1 ++ "\n" ++ p.2 ++ "\n"))) = _
  rw [foldl_assocSet_congr hmap]
  rfl

/-- `primaschema_ref_hash` factors through the id/uppercased-sequence
projection of the id-sorted records. -/
theorem primaschema_ref_hash_eq (l : List FastaRecord) :
    primaschema_ref_hash l = "primaschema:ref:" ++ pyTake (sha256hexStr
      (String.join ((List.insertionSort refPairLe (l.map refDictPair)).map
        fun p => pyUpper (pyStrip p.1) ++ p.2))) 16 := by
  show ("primaschema:ref:") ++ pyTake (sha256hexStr
      (String.join ((List.insertionSort recIdLe l).map fun r =>
        pyUpper (pyStrip r.id) ++ pyUpper r.seq))) 16 = _
  have hcomm : (List.insertionSort recIdLe l).map refDictPair =
      List.insertionSort refPairLe (l.map refDictPair) :=
    List.map_insertionSort recIdLe refPairLe refDictPair l (fun a _ b _ => Iff.rfl)
  rw [← hcomm, List.map_map]
  rfl

theorem primaschema_ref_hash_perm {l₁ l₂ : List FastaRecord}
    (hnd : (l₁.map FastaRecord.id).Nodup) (hperm : l₁.Perm l₂) :
    primaschema_ref_hash l₁ = primaschema_ref_hash l₂ := by
  rw [primaschema_ref_hash_eq, primaschema_ref_hash_eq]
  have hsorteq : List.insertionSort refPairLe (l₁.map refDictPair) =
      List.insertionSort refPairLe (l₂.map refDictPair) := by
    have hp : (l₁.map refDictPair).Perm (l₂.map refDictPair) := hperm.map _
    have hfst : ∀ l : List FastaRecord,
        (List.insertionSort refPairLe (l.map refDictPair)).map Prod.fst =
          List.insertionSort (cmpLe cmpStr) (l.map FastaRecord.id) := by
      intro l
      rw [List.map_insertionSort refPairLe (cmpLe cmpStr) Prod.fst _
        (fun a _ b _ => Iff.rfl), List.map_map]
      rfl
    apply eq_of_map_eq_perm_nodup (f := Prod.fst)
    · rw [hfst, hfst,
        insertionSort_eq_of_perm lawCmpStr (cmpLe cmpStr) (fun _ _ => Iff.rfl)
          (hperm.map FastaRecord.id)]
    · exact ((List.perm_insertionSort _ _).trans hp).trans
        (List.perm_insertionSort _ _).symm
    · rw [hfst]
      exact ((List.perm_insertionSort (cmpLe cmpStr)
        (l₁.map FastaRecord.id)).nodup_iff).mpr hnd
  rw [hsorteq]

theorem primaschema_ref_hash_case {l₁ l₂ : List FastaRecord}
    (hmap : l₁.map refDictPair = l₂.map refDictPair) :
    primaschema_ref_hash l₁ = primaschema_ref_hash l₂ := by
  rw [primaschema_ref_hash_eq, primaschema_ref_hash_eq, hmap]

/-- Claim C5 as amended: both reference digests are independent of record
order (for distinct ids) and of sequence case, and each returns a
16-hex-character truncated SHA-256 digest — but their serialisations and
namespace tags differ: `lib.hash_ref` hashes `>id\nSEQ\n` blocks of the
id-sorted uppercased dictionary under the bare `primaschema:` prefix
(no `ref` tag), while `util.primaschema_ref_hash` hashes the concatenated
`id.strip().upper()` and uppercased sequence of each id-sorted record under
`primaschema:ref:`. -/
theorem reference_digest_spec (l₁ l₂ l : List FastaRecord) :
    ((l₁.map FastaRecord.id).Nodup → l₁.Perm l₂ →
      hash_ref l₁ = hash_ref l₂ ∧
        primaschema_ref_hash l₁ = primaschema_ref_hash l₂) ∧
    (l₁.map refDictPair = l₂.map refDictPair →
      hash_ref l₁ = hash_ref l₂ ∧
        primaschema_ref_hash l₁ = primaschema_ref_hash l₂) ∧
    (∃ t, hash_ref l = "primaschema:" ++ t ∧ t.length = 16 ∧
      ∀ c ∈ t.data, isHexDigitChar c = true) ∧
    (∃ t, primaschema_ref_hash l = "primaschema:ref:" ++ t ∧ t.length = 16 ∧
      ∀ c ∈ t.data, isHexDigitChar c = true) := by
  refine ⟨fun hnd hperm => ⟨hash_ref_perm hnd hperm,
      primaschema_ref_hash_perm hnd hperm⟩,
    fun hmap => ⟨hash_ref_case hmap, primaschema_ref_hash_case hmap⟩, ?_, ?_⟩
  · exact ⟨_, rfl, (take16_sha256_spec _).1, (take16_sha256_spec _).2⟩
  · rw [primaschema_ref_hash_eq]
    exact ⟨_, rfl, (take16_sha256_spec _).1, (take16_sha256_spec _).2⟩

def wRefB : FastaRecord := ⟨"chrB", "acgtTT"⟩

def wRefA2 : FastaRecord := ⟨"chrA", "GGcc"⟩

def wRefBUpper : FastaRecord := ⟨"chrB", "ACGTtt"⟩

def wRefA2Lower : FastaRecord := ⟨"chrA", "ggCC"⟩

/-- Witness for the amended C5: a concrete two-record reference, its
reversal, and a case-variant of it. -/
theorem reference_digest_spec_witness :
    ([wRefB, wRefA2].map FastaRecord.id).Nodup ∧
    [wRefB, wRefA2].Perm [wRefA2, wRefB] ∧
    hash_ref [wRefB, wRefA2] = hash_ref [wRefA2, wRefB] ∧
    primaschema_ref_hash [wRefB, wRefA2] = primaschema_ref_hash [wRefA2, wRefB] ∧
    [wRefB, wRefA2].map refDictPair = [wRefBUpper, wRefA2Lower].map refDictPair ∧
    hash_ref [wRefB, wRefA2] = hash_ref [wRefBUpper, wRefA2Lower] ∧
    primaschema_ref_hash [wRefB, wRefA2] =
      primaschema_ref_hash [wRefBUpper, wRefA2Lower] := by
  obtain ⟨hperm, hcase, -, -⟩ :=
    reference_digest_spec [wRefB, wRefA2] [wRefA2, wRefB] []
  obtain ⟨-, hcase', -, -⟩ :=
    reference_digest_spec [wRefB, wRefA2] [wRefBUpper, wRefA2Lower] []
  obtain ⟨h1, h2⟩ := hperm (by decide) (by decide)
  obtain ⟨h3, h4⟩ := hcase' (by rfl)
  exact ⟨by decide, by decide, h1, h2, by rfl, h3, h4⟩

def cRef : FastaRecord := ⟨"chr1", "ACGT"⟩

set_option maxRecDepth 40000 in
/-- Counterexample to claim C5 as stated: at the one-record reference
`chr1 ↦ ACGT`, neither source function computes the digest the claim
describes — `hash_ref` lacks the `ref` namespace tag and uppercases the
serialised ids, and `primaschema_ref_hash` hashes a different serialisation
(no `>`/newline block structure), so both differ from the claimed
procedure's output. -/
theorem reference_digest_procedure_mismatch :
    hash_ref [cRef] ≠ hash_reference_spec [cRef] ∧
      primaschema_ref_hash [cRef] ≠ hash_reference_spec [cRef] := by
  constructor
  · decide
  · decide

/-! ## Claim theorems: the manifest index -/

def mOriginal : ManifestPrimerScheme :=
  ⟨"artic-sars-cov-2", 400, "v1.0.0", some ("aaaa1111"), some ("cccc3333")⟩

def mIncoming : ManifestPrimerScheme :=
  ⟨"artic-sars-cov-2", 400, "v1.0.0", some ("bbbb2222"), some ("cccc3333")⟩

def idxWithOriginal : PrimerSchemeIndex :=
  add_manifest_primer_scheme [] mOriginal true

/-- Claim C2, evaluated at the failing input: the index holds an entry for
`(artic-sars-cov-2, 400, v1.0.0)`; an incoming entry with a different
`primer_file_sha256` is added with `strict=true`; the strict-conflict
condition that makes the source construct its `ValueError` holds — yet the
add returns normally and the stored entry is the incoming one (the
`ValueError` is never raised, the original entry is not retained). -/
theorem add_strict_conflict_overwrites :
    mOriginal.primer_file_sha256 ≠ mIncoming.primer_file_sha256 ∧
    lookupEntry idxWithOriginal ("artic-sars-cov-2") 400 ("v1.0.0") = some mOriginal ∧
    manifest_strict_conflict idxWithOriginal mIncoming = true ∧
    lookupEntry (add_manifest_primer_scheme idxWithOriginal mIncoming true)
      ("artic-sars-cov-2") 400 ("v1.0.0") = some mIncoming :=
  ⟨by decide, by decide, by decide, by decide⟩

/-- No empty amplicon-size or name level survives. -/
def noEmptyLevels (idx : PrimerSchemeIndex) : Prop :=
  ∀ p ∈ idx, p.2 ≠ [] ∧ ∀ q ∈ p.2, q.2 ≠ []

theorem prune_index_noEmpty (idx : PrimerSchemeIndex) :
    noEmptyLevels (prune_index idx) := by
  intro p hp
  rw [prune_index] at hp
  obtain ⟨hp', hfilt⟩ := List.mem_filter.mp hp
  constructor
  · intro hnil
    rw [hnil] at hfilt
    simp at hfilt
  · obtain ⟨p₀, hp₀, rfl⟩ := List.mem_map.mp hp'
    intro q hq hnil
    obtain ⟨hq₀, hqf⟩ := List.mem_filter.mp hq
    rw [hnil] at hqf
    simp at hqf

/-- Claim C8: `remove` returns `true` exactly when an entry exists at
`(name, amplicon_size, version)`, and after a successful removal the pruned
index has no empty amplicon-size level and no empty name level. -/
theorem remove_manifest_primer_scheme_spec (idx : PrimerSchemeIndex)
    (m : ManifestPrimerScheme) :
    ((remove_manifest_primer_scheme idx m).2 = true ↔
      (lookupEntry idx m.name m.amplicon_size m.version).isSome = true) ∧
    ((remove_manifest_primer_scheme idx m).2 = true →
      noEmptyLevels (remove_manifest_primer_scheme idx m).1) := by
  rcases h1 : lookupA idx m.name with _ | nl
  · constructor
    · simp [remove_manifest_primer_scheme, h1, lookupEntry]
    · simp [remove_manifest_primer_scheme, h1]
  · rcases h2 : lookupA nl m.amplicon_size with _ | al
    · constructor
      · simp [remove_manifest_primer_scheme, h1, h2, lookupEntry]
      · simp [remove_manifest_primer_scheme, h1, h2]
    · by_cases h3 : (lookupA al m.version).isSome = true
      · constructor
        · simp [remove_manifest_primer_scheme, h1, h2, h3, lookupEntry]
        · intro _
          simp only [remove_manifest_primer_scheme, h1, h2, h3, if_true]
          exact prune_index_noEmpty _
      · have h3' : (lookupA al m.version).isSome = false := by
          simpa using h3
        constructor
        · simp [remove_manifest_primer_scheme, h1, h2, h3', lookupEntry]
        · simp [remove_manifest_primer_scheme, h1, h2, h3']

/-- Witness for C8: removing the sole version of the sole scheme returns
`true` and prunes every level; removing a missing version returns
`false`. -/
theorem remove_manifest_primer_scheme_spec_witness :
    (remove_manifest_primer_scheme idxWithOriginal mOriginal).2 = true ∧
    noEmptyLevels (remove_manifest_primer_scheme idxWithOriginal mOriginal).1 ∧
    (remove_manifest_primer_scheme [] mOriginal).2 = false := by
  obtain ⟨hiff, hprune⟩ :=
    remove_manifest_primer_scheme_spec idxWithOriginal mOriginal
  have ht : (remove_manifest_primer_scheme idxWithOriginal mOriginal).2 = true :=
    hiff.mpr (by decide)
  obtain ⟨hiff2, -⟩ := remove_manifest_primer_scheme_spec [] mOriginal
  refine ⟨ht, hprune ht, ?_⟩
  rcases h : (remove_manifest_primer_scheme [] mOriginal).2 with _ | _
  · rfl
  · exact absurd (hiff2.mp h) (by decide)

/-! ## Claim theorems: bundle path validation -/

/-- Claim C9: `validate_name` succeeds exactly when the last three path
segments equal the metadata `(name, str(amplicon_size), version)` in that
nesting order, and each single-field mismatch fails with the `ValueError`
naming that field together with the metadata value and the path value. -/
theorem validate_name_spec (ps : PrimerScheme) (name_seg size_seg ver_seg : String) :
    (validate_name ps name_seg size_seg ver_seg = .ok () ↔
      (ps.name = name_seg ∧ Nat.repr ps.amplicon_size = size_seg ∧
        ps.version = ver_seg)) ∧
    (ps.version ≠ ver_seg →
      validate_name ps name_seg size_seg ver_seg =
        .error ("Version mismatch for " ++ scheme_rel_path ps ++ ": info (" ++
          ps.version ++ ") != path (" ++ ver_seg ++ ")")) ∧
    (ps.version = ver_seg → Nat.repr ps.amplicon_size ≠ size_seg →
      validate_name ps name_seg size_seg ver_seg =
        .error ("Amplicon size mismatch for " ++ scheme_rel_path ps ++ ": info (" ++
          Nat.repr ps.amplicon_size ++ ") != path (" ++ size_seg ++ ")")) ∧
    (ps.version = ver_seg → Nat.repr ps.amplicon_size = size_seg →
      ps.name ≠ name_seg →
      validate_name ps name_seg size_seg ver_seg =
        .error ("Name mismatch for " ++ scheme_rel_path ps ++ ": info (" ++
          ps.name ++ ") != path (" ++ name_seg ++ ")")) := by
  refine ⟨?_, ?_, ?_, ?_⟩
  · by_cases h1 : ps.version = ver_seg
    · by_cases h2 : Nat.repr ps.amplicon_size = size_seg
      · by_cases h3 : ps.name = name_seg
        · simp [validate_name, h1, h2, h3]
        · simp [validate_name, h1, h2, h3]
      · simp [validate_name, h1, h2]
    · simp [validate_name, h1]
  · intro h1
    simp [validate_name, h1]
  · intro h1 h2
    simp [validate_name, h1, h2]
  · intro h1 h2 h3
    simp [validate_name, h1, h2, h3]

def wScheme9 : PrimerScheme := ⟨"foo", 400, "v1.0.0"⟩

/-- Witness for C9: the bundle at `.../foo/400/v1.0.0` passes, and a
version-only mismatch fails with the message naming the version field and
both values. -/
theorem validate_name_spec_witness :
    validate_name wScheme9 ("foo") ("400") ("v1.0.0") = .ok () ∧
    validate_name wScheme9 ("foo") ("400") ("v2.0.0") =
      .error ("Version mismatch for foo/400/v1.0.0: info (v1.0.0) != path (v2.0.0)") := by
  obtain ⟨hiff, -, -, -⟩ := validate_name_spec wScheme9 ("foo") ("400") ("v1.0.0")
  obtain ⟨-, hver, -, -⟩ := validate_name_spec wScheme9 ("foo") ("400") ("v2.0.0")
  refine ⟨hiff.mpr (by decide), ?_⟩
  have := hver (by decide)
  rw [this]
  rfl
